import Mathlib

/-!
Shallow embedding of `src/crypto-nonce-finder.js`.

The file's core is `findNonceWithLeadingZeros(dataPrefix = "", requiredZeros = 5)`
(lines 10-44): build `targetPrefix = "0".repeat(requiredZeros)`, then loop from
`nonce = 0`, hashing `dataPrefix + nonce.toString()` with SHA-256, returning
`[nonce, hashResult]` as soon as the lowercase-hex digest starts with the
target, and otherwise incrementing `nonce` by one.

Embedding choices:
* JS strings become `List Char`; string concatenation becomes `++`.
* The digest (node's `crypto` SHA-256, rendered as 64 lowercase hex
  characters) is an external dependency of the repository, not code of it, so
  the engine is embedded generically in a `digest : List Char → List Char`
  parameter, exactly as the engine's own logic is generic in it.
* The `while (true)` loop is observed for `fuel` iterations; `fuel` plays no
  role in the source, it only bounds how long a run is watched.  The loop has
  a single exit (the `return` on a match), so an observation either ends in
  `found nonce digestHex` or in `outOfFuel` with the loop still going.
* `requiredZeros` is an integer; `"0".repeat(count)` throws a JS `RangeError`
  for a negative count, which the embedding returns as an `Except` error.
* The nonce counter is a JS number (an IEEE-754 double).  Integer doubles are
  exact strictly below 2^53, and `2^53 + 1` is not representable (it rounds
  back to 2^53), so `nonce++` saturates at 2^53; `jsInc` embeds this.
* The progress write to stderr and the yield to the event loop at lines 36-42
  do not affect the value computed and are not modelled.
-/

/-- JS runtime error relevant to this program: `String.prototype.repeat`
throws a `RangeError` when its count is negative (source line 12 with a
negative `requiredZeros`). -/
inductive JsError where
  | rangeError
deriving DecidableEq

/-- Result of observing the `while (true)` loop (source lines 17-43) for a
bounded number of iterations: either the single `return` statement fired
(`found nonce digestHex`, line 28), or the observation budget ran out with
the loop still running (`outOfFuel`).  The loop has no other exit. -/
inductive SearchOutcome where
  | found (nonce : Nat) (digestHex : List Char)
  | outOfFuel
deriving DecidableEq

/-- The character for the decimal digit `d` (ASCII `'0'` is codepoint 48). -/
def digitChar (d : Nat) : Char := Char.ofNat (48 + d)

/-- Decimal digits of `n`, most significant first, with an explicit structural
recursion bound `b` (any `b > n` suffices) so that concrete runs reduce in the
kernel. -/
def natDigitsCore : Nat → Nat → List Char
  | 0, _ => []
  | b + 1, n =>
    if n < 10 then [digitChar n]
    else natDigitsCore b (n / 10) ++ [digitChar (n % 10)]

/-- `nonce.toString()` for a non-negative integer JS number: its ASCII decimal
digits, no sign, no leading zero (and `"0"` for zero). -/
def natDigits (n : Nat) : List Char := natDigitsCore (n + 1) n

/-- `inputData = dataPrefix + nonce.toString()` (source line 19): the
candidate byte sequence that is hashed for a given nonce. -/
def candidate (dataPfx : List Char) (nonce : Nat) : List Char :=
  dataPfx ++ natDigits nonce

/-- The match test of source line 27 for the candidate of `nonce`:
`hashResult.startsWith(targetPrefix)`, with `tp` the target string. -/
def leadingMatch (digest : List Char → List Char) (dataPfx tp : List Char)
    (nonce : Nat) : Bool :=
  tp.isPrefixOf (digest (candidate dataPfx nonce))

/-- `nonce++` on a JS number holding a non-negative integer: exact below
2^53, and at 2^53 the increment is absorbed (2^53 + 1 rounds back to 2^53),
so the counter saturates; in particular it never wraps to 0. -/
def jsInc (n : Nat) : Nat := if n < 2 ^ 53 then n + 1 else n

/-- The `while (true)` loop of source lines 17-43, observed for at most
`fuel` iterations: hash the candidate for the current nonce, return
`[nonce, hashResult]` on a match, otherwise increment the nonce and
continue. -/
def searchLoop (digest : List Char → List Char) (dataPfx tp : List Char) :
    Nat → Nat → SearchOutcome
  | _, 0 => .outOfFuel
  | nonce, fuel + 1 =>
    if tp.isPrefixOf (digest (candidate dataPfx nonce)) then
      .found nonce (digest (candidate dataPfx nonce))
    else searchLoop digest dataPfx tp (jsInc nonce) fuel

/-- `"0".repeat(count)` (source line 12 instantiated at `"0"`): `count`
copies of `c`, or a `RangeError` when the count is negative. -/
def repeatChar (c : Char) (count : Int) : Except JsError (List Char) :=
  if count < 0 then .error .rangeError
  else .ok (List.replicate count.toNat c)

/-- `findNonceWithLeadingZeros` (source lines 10-44): build the target string
of `requiredZeros` zeros, then run the search loop from nonce 0.  The
parameter defaults are those of the source: `dataPrefix = ""` and
`requiredZeros = 5`. -/
def findNonceWithLeadingZeros (digest : List Char → List Char) (fuel : Nat)
    (dataPfx : List Char := []) (requiredZeros : Int := 5) :
    Except JsError SearchOutcome :=
  match repeatChar '0' requiredZeros with
  | .error e => .error e
  | .ok tp => .ok (searchLoop digest dataPfx tp 0 fuel)

/-- The numeric value of a string of decimal digit characters, most
significant first (the inverse reading of `natDigits`). -/
def digitsVal (l : List Char) : Nat :=
  l.foldl (fun a c => 10 * a + (c.toNat - 48)) 0

/-- Stand-in digest for concrete runs: every input digests to 64 `'f'`
characters, so no nonzero target ever matches. -/
def noMatchDigest : List Char → List Char := fun _ => List.replicate 64 'f'

/-- Stand-in digest for concrete runs: the candidate for `dataPrefix = "a"`
and nonce 2 digests to 64 `'0'` characters, every other input to 64 `'f'`
characters. -/
def demoDigest (s : List Char) : List Char :=
  if s = candidate ['a'] 2 then List.replicate 64 '0' else List.replicate 64 'f'

/-! ### Helper lemmas about the counter and the loop -/

theorem jsInc_le_succ (n : Nat) : jsInc n ≤ n + 1 := by
  unfold jsInc; split <;> omega

theorem le_jsInc (n : Nat) : n ≤ jsInc n := by
  unfold jsInc; split <;> omega

/-- Characterization of a successful loop run: when the loop observed from
`start` returns `(n, h)`, the nonce `n` is at least `start`, the digest `h`
is the digest of `n`'s candidate, `n` matches, and no nonce from `start` up
to `n` (exclusive) matches. -/
theorem searchLoop_eq_found (digest : List Char → List Char)
    (p tp : List Char) :
    ∀ fuel start n h, searchLoop digest p tp start fuel = .found n h →
      start ≤ n ∧ h = digest (candidate p n) ∧
      leadingMatch digest p tp n = true ∧
      ∀ m, start ≤ m → m < n → leadingMatch digest p tp m = false := by
  intro fuel
  induction fuel with
  | zero =>
    intro start n h e
    simp [searchLoop] at e
  | succ f ih =>
    intro start n h e
    rcases hb : tp.isPrefixOf (digest (candidate p start)) with hfalse | htrue
    · rw [searchLoop, if_neg (by simp [hb])] at e
      obtain ⟨h₁, h₂, h₃, h₄⟩ := ih (jsInc start) n h e
      refine ⟨le_trans (le_jsInc start) h₁, h₂, h₃, ?_⟩
      intro m hsm hmn
      rcases Nat.eq_or_lt_of_le hsm with rfl | hlt
      · simpa [leadingMatch] using hb
      · exact h₄ m (le_trans (jsInc_le_succ start) hlt) hmn
    · rw [searchLoop, if_pos (by simp [hb])] at e
      obtain ⟨rfl, rfl⟩ := SearchOutcome.found.inj e
      refine ⟨Nat.le_refl _, rfl, by simpa [leadingMatch] using hb, ?_⟩
      intro m hsm hmn
      omega

/-- Unfolding a successful call: the `requiredZeros` count was non-negative,
the target string is that many `'0'` characters, and the loop from nonce 0
produced the outcome. -/
theorem findNonce_ok (digest : List Char → List Char) (fuel : Nat)
    (p : List Char) (k : Int) (r : SearchOutcome)
    (e : findNonceWithLeadingZeros digest fuel p k = .ok r) :
    0 ≤ k ∧ searchLoop digest p (List.replicate k.toNat '0') 0 fuel = r := by
  by_cases hk : k < 0
  · simp [findNonceWithLeadingZeros, repeatChar, hk] at e
  · refine ⟨by omega, ?_⟩
    simpa [findNonceWithLeadingZeros, repeatChar, hk] using e

/-- The boolean `isPrefixOf` test used on source line 27 agrees with the
prefix relation on lists. -/
theorem isPrefixOf_eq_true_iff (l₁ l₂ : List Char) :
    l₁.isPrefixOf l₂ = true ↔ l₁ <+: l₂ := by
  simp

/-- When no nonce ever matches, the loop never returns: every bounded
observation ends with the loop still running, whatever the starting nonce. -/
theorem searchLoop_never_matches (digest : List Char → List Char)
    (p tp : List Char)
    (hnm : ∀ m, leadingMatch digest p tp m = false) :
    ∀ fuel start, searchLoop digest p tp start fuel = .outOfFuel := by
  intro fuel
  induction fuel with
  | zero => intro start; rfl
  | succ f ih =>
    intro start
    have hb := hnm start
    unfold leadingMatch at hb
    rw [searchLoop, if_neg (by simp [hb])]
    exact ih (jsInc start)

/-! ### Helper lemmas about the decimal rendering of the nonce -/

theorem digitChar_toNat (d : Nat) (hd : d < 10) : (digitChar d).toNat = 48 + d := by
  interval_cases d <;> rfl

theorem digitChar_ne_zero_char (d : Nat) (h1 : 1 ≤ d) (hd : d < 10) :
    digitChar d ≠ '0' := by
  intro hc
  have h48 : ('0' : Char).toNat = 48 := rfl
  have := digitChar_toNat d hd
  rw [hc, h48] at this
  omega

theorem natDigitsCore_ne_nil : ∀ b n, n < b → natDigitsCore b n ≠ [] := by
  intro b
  induction b with
  | zero => intro n hn; omega
  | succ b ih =>
    intro n hn
    unfold natDigitsCore
    split <;> simp

theorem natDigitsCore_sub_lt (b n : Nat) (hn : n < b + 1) (h10 : ¬ n < 10) :
    n / 10 < b := by
  have hdiv : n / 10 < n := Nat.div_lt_self (by omega) (by omega)
  omega

theorem natDigitsCore_val : ∀ b n, n < b → ∀ a,
    (natDigitsCore b n).foldl (fun x c => 10 * x + (c.toNat - 48)) a
      = a * 10 ^ (natDigitsCore b n).length + n := by
  intro b
  induction b with
  | zero => intro n hn; omega
  | succ b ih =>
    intro n hn a
    by_cases h10 : n < 10
    · rw [natDigitsCore, if_pos h10]
      simp [List.foldl, digitChar_toNat n h10]
      omega
    · rw [natDigitsCore, if_neg h10]
      have hlt := natDigitsCore_sub_lt b n hn h10
      rw [List.foldl_append, ih (n / 10) hlt a]
      have hmod : n % 10 < 10 := Nat.mod_lt _ (by omega)
      simp [List.foldl, digitChar_toNat (n % 10) hmod, List.length_append,
        pow_succ]
      have hdm := Nat.div_add_mod n 10
      ring_nf
      omega

theorem natDigitsCore_digits : ∀ b n, n < b →
    ∀ c ∈ natDigitsCore b n, 48 ≤ c.toNat ∧ c.toNat ≤ 57 := by
  intro b
  induction b with
  | zero => intro n hn; omega
  | succ b ih =>
    intro n hn c hc
    by_cases h10 : n < 10
    · rw [natDigitsCore, if_pos h10] at hc
      simp at hc
      subst hc
      rw [digitChar_toNat n h10]
      omega
    · rw [natDigitsCore, if_neg h10] at hc
      rcases List.mem_append.mp hc with hmem | hmem
      · exact ih (n / 10) (natDigitsCore_sub_lt b n hn h10) c hmem
      · simp at hmem
        subst hmem
        have hmod : n % 10 < 10 := Nat.mod_lt _ (by omega)
        rw [digitChar_toNat (n % 10) hmod]
        omega

theorem natDigitsCore_head : ∀ b n, n < b → n ≠ 0 →
    (natDigitsCore b n).head? ≠ some '0' := by
  intro b
  induction b with
  | zero => intro n hn; omega
  | succ b ih =>
    intro n hn hn0
    by_cases h10 : n < 10
    · rw [natDigitsCore, if_pos h10]
      simp
      exact digitChar_ne_zero_char n (by omega) h10
    · rw [natDigitsCore, if_neg h10]
      have hne := natDigitsCore_ne_nil b (n / 10) (natDigitsCore_sub_lt b n hn h10)
      rw [List.head?_append_of_ne_nil _ hne]
      exact ih (n / 10) (natDigitsCore_sub_lt b n hn h10) (by omega)

/-! ### Claim theorems -/

/-- C1: whenever `findNonceWithLeadingZeros` returns a pair `(n, h)`, the
returned `digestHex` is exactly the digest of the candidate byte sequence
`dataPrefix ++ decimal(n)` (the `digest` parameter standing for node's
lowercase-hex SHA-256, an external dependency of the repository), and the
first `requiredZeros` characters of that digest are all `'0'`. -/
theorem found_digest_has_leading_zeros (digest : List Char → List Char)
    (fuel : Nat) (p : List Char) (k : Int) (n : Nat) (h : List Char)
    (e : findNonceWithLeadingZeros digest fuel p k = .ok (.found n h)) :
    h = digest (candidate p n) ∧
    List.take k.toNat h = List.replicate k.toNat '0' := by
  obtain ⟨hk, hloop⟩ := findNonce_ok digest fuel p k _ e
  obtain ⟨_, hdig, hmatch, _⟩ := searchLoop_eq_found digest p _ fuel 0 n h hloop
  refine ⟨hdig, ?_⟩
  unfold leadingMatch at hmatch
  rw [← hdig] at hmatch
  have hpre : List.replicate k.toNat '0' <+: h :=
    (isPrefixOf_eq_true_iff _ _).mp hmatch
  obtain ⟨t, ht⟩ := hpre
  rw [← ht, List.take_left' (List.length_replicate _ _)]

/-- Witness for C1: a concrete run under `demoDigest` with `requiredZeros = 1`
finds nonce 2, and the theorem's conclusion holds for it. -/
theorem found_digest_has_leading_zeros_witness :
    List.replicate 64 '0' = demoDigest (candidate ['a'] 2) ∧
    List.take (Int.toNat 1) (List.replicate 64 '0') =
      List.replicate (Int.toNat 1) '0' :=
  found_digest_has_leading_zeros demoDigest 10 ['a'] 1 2
    (List.replicate 64 '0') rfl

/-- C2: whenever `findNonceWithLeadingZeros` returns nonce `n`, then `n`
satisfies the match condition and is the smallest non-negative integer doing
so: no nonce in `[0, n)` produces a digest starting with the target string of
`requiredZeros` zeros. -/
theorem returned_nonce_is_minimal (digest : List Char → List Char)
    (fuel : Nat) (p : List Char) (k : Int) (n : Nat) (h : List Char)
    (e : findNonceWithLeadingZeros digest fuel p k = .ok (.found n h)) :
    leadingMatch digest p (List.replicate k.toNat '0') n = true ∧
    ∀ m, m < n → leadingMatch digest p (List.replicate k.toNat '0') m = false := by
  obtain ⟨hk, hloop⟩ := findNonce_ok digest fuel p k _ e
  obtain ⟨_, _, hmatch, hmin⟩ := searchLoop_eq_found digest p _ fuel 0 n h hloop
  exact ⟨hmatch, fun m hm => hmin m (Nat.zero_le m) hm⟩

/-- Witness for C2: in the concrete `demoDigest` run the returned nonce 2
matches and the earlier nonce 1 does not. -/
theorem returned_nonce_is_minimal_witness :
    leadingMatch demoDigest ['a'] (List.replicate (Int.toNat 1) '0') 2 = true ∧
    leadingMatch demoDigest ['a'] (List.replicate (Int.toNat 1) '0') 1 = false :=
  ⟨(returned_nonce_is_minimal demoDigest 10 ['a'] 1 2
      (List.replicate 64 '0') rfl).1,
   (returned_nonce_is_minimal demoDigest 10 ['a'] 1 2
      (List.replicate 64 '0') rfl).2 1 (by omega)⟩

/-- C6: the byte sequence hashed for a nonce is exactly the data prefix
followed directly by the ASCII decimal digits of the nonce: the digit string
is non-empty, consists only of ASCII digit characters (codepoints 48-57, so
it contains no sign and no separator), reads back as the value of the nonce,
and has no leading `'0'` for a nonzero nonce. -/
theorem candidate_encoding (p : List Char) (n : Nat) :
    candidate p n = p ++ natDigits n ∧
    natDigits n ≠ [] ∧
    (∀ c ∈ natDigits n, 48 ≤ c.toNat ∧ c.toNat ≤ 57) ∧
    digitsVal (natDigits n) = n ∧
    (n ≠ 0 → (natDigits n).head? ≠ some '0') := by
  refine ⟨rfl, natDigitsCore_ne_nil _ _ (by omega),
    natDigitsCore_digits _ _ (by omega), ?_,
    fun h0 => natDigitsCore_head _ _ (by omega) h0⟩
  unfold digitsVal natDigits
  have hv := natDigitsCore_val (n + 1) n (by omega) 0
  simpa using hv

/-- Witness for C6: the encoding facts at the concrete nonce 10. -/
theorem candidate_encoding_witness :
    candidate ['a'] 10 = ['a'] ++ natDigits 10 ∧
    digitsVal (natDigits 10) = 10 ∧
    (natDigits 10).head? ≠ some '0' :=
  ⟨(candidate_encoding ['a'] 10).1,
   (candidate_encoding ['a'] 10).2.2.2.1,
   (candidate_encoding ['a'] 10).2.2.2.2 (by omega)⟩

/-- C7: the search result is a deterministic function of
`(dataPrefix, requiredZeros)`: two uncancelled calls that both return — even
if observed for different lengths of time — return the identical
`(nonce, digestHex)` pair. -/
theorem search_is_deterministic (digest : List Char → List Char)
    (fuel₁ fuel₂ : Nat) (p : List Char) (k : Int) (n₁ n₂ : Nat)
    (h₁ h₂ : List Char)
    (e₁ : findNonceWithLeadingZeros digest fuel₁ p k = .ok (.found n₁ h₁))
    (e₂ : findNonceWithLeadingZeros digest fuel₂ p k = .ok (.found n₂ h₂)) :
    n₁ = n₂ ∧ h₁ = h₂ := by
  obtain ⟨_, l₁⟩ := findNonce_ok digest fuel₁ p k _ e₁
  obtain ⟨_, l₂⟩ := findNonce_ok digest fuel₂ p k _ e₂
  obtain ⟨_, hd₁, hm₁, hmin₁⟩ := searchLoop_eq_found digest p _ fuel₁ 0 n₁ h₁ l₁
  obtain ⟨_, hd₂, hm₂, hmin₂⟩ := searchLoop_eq_found digest p _ fuel₂ 0 n₂ h₂ l₂
  have hnn : n₁ = n₂ := by
    rcases Nat.lt_trichotomy n₁ n₂ with hlt | heq | hgt
    · have hc := hmin₂ n₁ (Nat.zero_le _) hlt
      rw [hm₁] at hc
      exact Bool.noConfusion hc
    · exact heq
    · have hc := hmin₁ n₂ (Nat.zero_le _) hgt
      rw [hm₂] at hc
      exact Bool.noConfusion hc
  subst hnn
  rw [hd₁, hd₂]
  exact ⟨rfl, rfl⟩

/-- Witness for C7: two concrete runs observed for different lengths of time
(5 and 9 iterations) return the same pair. -/
theorem search_is_deterministic_witness :
    (2 : Nat) = 2 ∧ List.replicate 64 '0' = List.replicate 64 '0' :=
  search_is_deterministic demoDigest 5 9 ['a'] 1 2 2
    (List.replicate 64 '0') (List.replicate 64 '0') rfl rfl

/-- C8: with `requiredZeros = 0` the target string is empty, every digest
matches it, and the very first iteration returns nonce 0 with the digest of
its candidate. -/
theorem zero_required_returns_zero (digest : List Char → List Char)
    (p : List Char) (fuel : Nat) (hf : 0 < fuel) :
    findNonceWithLeadingZeros digest fuel p 0 =
      .ok (.found 0 (digest (candidate p 0))) := by
  obtain ⟨f, rfl⟩ : ∃ f, fuel = f + 1 := ⟨fuel - 1, by omega⟩
  simp [findNonceWithLeadingZeros, repeatChar, searchLoop]

/-- Witness for C8: the concrete run with `requiredZeros = 0`. -/
theorem zero_required_returns_zero_witness :
    findNonceWithLeadingZeros demoDigest 4 ['a'] 0 =
      .ok (.found 0 (demoDigest (candidate ['a'] 0))) :=
  zero_required_returns_zero demoDigest ['a'] 4 (by omega)

/-- C9: calling the function with both arguments omitted is the same call as
giving `dataPrefix = ""` and `requiredZeros = 5` explicitly — those are the
declared parameter defaults. -/
theorem omitted_arguments_use_defaults (digest : List Char → List Char)
    (fuel : Nat) :
    findNonceWithLeadingZeros digest fuel =
      findNonceWithLeadingZeros digest fuel [] 5 := rfl

/-- C10: a negative `requiredZeros` makes `"0".repeat` throw a `RangeError`
before the loop is ever entered: the call fails for every digest function and
even with no loop iterations observed, so no digest is computed and no result
is returned. -/
theorem negative_required_range_error (digest : List Char → List Char)
    (fuel : Nat) (p : List Char) (k : Int) (hk : k < 0) :
    findNonceWithLeadingZeros digest fuel p k = .error .rangeError := by
  simp [findNonceWithLeadingZeros, repeatChar, hk]

/-- Witness for C10: the concrete call with `requiredZeros = -3`. -/
theorem negative_required_range_error_witness :
    findNonceWithLeadingZeros demoDigest 4 ['a'] (-3) = .error .rangeError :=
  negative_required_range_error demoDigest 4 ['a'] (-3) (by omega)

/-- C3 counterexample: with `requiredZeros = 65` the call does not fail at
all, let alone synchronously before hashing — it enters the loop and computes
candidate digests (three of them within this observation budget), returning
no error of any kind.  The source performs no validation of
`requiredZeros`. -/
theorem required_65_searches_without_error :
    findNonceWithLeadingZeros demoDigest 3 ['a'] 65 = .ok .outOfFuel := rfl

/-- C3 amended: the code raises no error for `requiredZeros` above 64; since
a 64-character digest can never start with more than 64 zeros, no candidate
ever matches, so the call searches forever — every bounded observation ends
with the loop still running and no result. -/
theorem required_above_64_never_returns (digest : List Char → List Char)
    (hd : ∀ s, (digest s).length = 64) (fuel : Nat) (p : List Char)
    (k : Int) (hk : 64 < k) :
    findNonceWithLeadingZeros digest fuel p k = .ok .outOfFuel := by
  have hk0 : ¬ k < 0 := by omega
  have hnm : ∀ m, leadingMatch digest p (List.replicate k.toNat '0') m = false := by
    intro m
    rcases hb : leadingMatch digest p (List.replicate k.toNat '0') m with _ | _
    · rfl
    · exfalso
      unfold leadingMatch at hb
      have hpre := (isPrefixOf_eq_true_iff _ _).mp hb
      have hlen := hpre.length_le
      rw [List.length_replicate, hd] at hlen
      omega
  simp [findNonceWithLeadingZeros, repeatChar, hk0,
    searchLoop_never_matches digest p _ hnm fuel 0]

/-- Witness for C3 amended: the concrete call with `requiredZeros = 65` under
`demoDigest` (whose outputs all have length 64). -/
theorem required_above_64_never_returns_witness :
    findNonceWithLeadingZeros demoDigest 7 ['a'] 65 = .ok .outOfFuel :=
  required_above_64_never_returns demoDigest
    (fun s => by unfold demoDigest; split <;> simp) 7 ['a'] 65 (by omega)

/-- C4 counterexample: at the counter's overflow boundary 2^53, with a digest
under which no candidate matches, the iteration raises nothing and continues:
the increment maps 2^53 back to 2^53 itself, so the next iteration revisits
nonce 2^53, and the observed run simply keeps going with no error. -/
theorem overflow_boundary_revisits_nonce :
    jsInc (2 ^ 53) = 2 ^ 53 ∧
    searchLoop noMatchDigest [] (List.replicate 1 '0') (2 ^ 53) 2 =
      .outOfFuel :=
  ⟨rfl, rfl⟩

/-- C4 amended: the code has no `Exhausted` error.  When no candidate
matches, every bounded observation of the loop ends with the loop still
running (the loop has no error exit); the counter saturates: at and above
2^53 the increment returns its argument unchanged, so the counter never
wraps to 0 (indeed no nonce ever increments to 0) but the boundary nonce is
revisited forever. -/
theorem no_exhausted_error_counter_saturates (digest : List Char → List Char)
    (p tp : List Char)
    (hnm : ∀ m, leadingMatch digest p tp m = false) (fuel start n : Nat)
    (hn : 2 ^ 53 ≤ n) :
    searchLoop digest p tp start fuel = .outOfFuel ∧
    jsInc n = n ∧ jsInc n ≠ 0 := by
  refine ⟨searchLoop_never_matches digest p tp hnm fuel start, ?_, ?_⟩
  · unfold jsInc
    rw [if_neg (by omega)]
  · unfold jsInc
    split <;> omega

/-- Witness for C4 amended: the never-matching digest with target `"0"`,
observed for 3 iterations, at the boundary value 2^53. -/
theorem no_exhausted_error_counter_saturates_witness :
    searchLoop noMatchDigest [] (List.replicate 1 '0') 0 3 = .outOfFuel ∧
    jsInc (2 ^ 53) = 2 ^ 53 ∧ jsInc (2 ^ 53) ≠ 0 :=
  no_exhausted_error_counter_saturates noMatchDigest [] (List.replicate 1 '0')
    (fun m => rfl) 3 0 (2 ^ 53) (by omega)
